import Mathlib

/-!
# Transports.Fragments: reassembly of fragmented messages

A shallow embedding of `src/Transports/Fragments/Task.cpp` (DUNE).

* `std::map<uint32_t, IncomingMessage>` is an association list kept in ascending key
  order by `Table.insert`; `Table.find`, `Table.subscript`, `Table.assign` and
  `Table.erase` are the map operations the task uses.
* The class `IncomingMessage` (header `IncomingMessage.hpp`) is not among the sources.
  `Task::consume` and `Task::messageRipper` are therefore embedded over an arbitrary
  implementation of its interface (`IncomingMessageClass`); `ReassemblyBuffer` is the
  implementation the specification describes.
* The clock is an explicit argument `now`; the bus and the log are output lists.
* A C++ statement whose behaviour is undefined ends the run with `Except.error`.
-/

namespace Transports.Fragments

/-- Time stamps and durations, in whole time units. -/
abbrev Time := Int

/-- Raw bytes of a fragment or of an assembled message. -/
abbrev Payload := List Nat

/-- The fields of `IMC::MessagePart` the task reads (`source` is `getSource()`). -/
structure MessagePart where
  uid : Nat
  source : Nat
  frag_number : Nat
  num_frags : Nat
  data : Payload
deriving DecidableEq, Repr

/-- Line 71: `int hash = (msg->uid << 16) | msg->getSource();`, as the `uint32_t`
key under which `m_incoming` stores it. -/
def hashKey (uid source : Nat) : Nat := ((uid <<< 16) ||| source) % 2 ^ 32

/-! ## The map `m_incoming` -/

/-- Contents of a `std::map<uint32_t, B>`, in iteration order. -/
abbrev Table (B : Type) := List (Nat × B)

namespace Table

variable {B : Type}

/-- The value stored under `k` (`m.find(k)`; `none` is `m.end()`). -/
def find : Table B → Nat → Option B
  | [], _ => none
  | (k', b) :: rest, k => if k' = k then some b else find rest k

/-- Insertion of a new node, at its place in ascending key order. -/
def insert : Table B → Nat → B → Table B
  | [], k, b => [(k, b)]
  | (k', b') :: rest, k, b =>
    if k < k' then (k, b) :: (k', b') :: rest else (k', b') :: insert rest k b

/-- The reference `m[k]`: the stored value, after inserting a freshly constructed one
(`dflt`) when the key is absent. -/
def subscript (m : Table B) (k : Nat) (dflt : B) : Table B × B :=
  match find m k with
  | some b => (m, b)
  | none => (insert m k dflt, dflt)

/-- Writing through a reference to the node of key `k`. -/
def assign : Table B → Nat → B → Table B
  | [], _, _ => []
  | (k', b') :: rest, k, b =>
    if k' = k then (k', b) :: rest else (k', b') :: assign rest k b

/-- The call `m.erase(k)`. -/
def erase : Table B → Nat → Table B
  | [], _ => []
  | (k', b') :: rest, k => if k' = k then erase rest k else (k', b') :: erase rest k

/-- The keys of the map, in iteration order. -/
def keys (m : Table B) : List Nat := m.map Prod.fst

end Table

/-! ## The task -/

/-- What the task uses of class `IncomingMessage`: the default constructor (which reads
the clock), `getFragmentsMissing`, `setFragment` (which updates the object and returns a
message or `NULL`) and `getAge` (which reads the clock). -/
structure IncomingMessageClass (B M : Type) where
  ctor : Time → B
  getFragmentsMissing : B → Int
  setFragment : Time → B → MessagePart → B × Option M
  getAge : Time → B → Time

/-- Lines of the task log. -/
inductive LogEntry where
  | debugStillMissing (n : Int)
  | debugRipping
  | warRemoved (n : Int)
deriving DecidableEq, Repr

/-- Task arguments. -/
structure Arguments where
  max_age_secs : Time
deriving DecidableEq, Repr

/-- State of the task, with the messages dispatched to the bus and the log lines
written so far (oldest first). -/
structure Task (B M : Type) where
  m_incoming : Table B
  m_args : Arguments
  bus : List M
  log : List LogEntry

variable {B M : Type}

/-- Lines 68-89, `Task::consume`. -/
def consume (I : IncomingMessageClass B M) (now : Time) (t : Task B M) (msg : MessagePart) :
    Task B M :=
  let hash := hashKey msg.uid msg.source
  -- if (m_incoming.find(hash) == m_incoming.end()) { ...; m_incoming[hash] = incMsg; }
  let m1 :=
    match Table.find t.m_incoming hash with
    | none =>
      let incMsg := I.ctor now
      Table.assign (Table.subscript t.m_incoming hash (I.ctor now)).1 hash incMsg
    | some _ => t.m_incoming
  -- debug("... (%d still missing)", m_incoming[hash].getFragmentsMissing());
  let r2 := Table.subscript m1 hash (I.ctor now)
  let log2 := t.log ++ [LogEntry.debugStillMissing (I.getFragmentsMissing r2.2)]
  -- IMC::Message * res = m_incoming[hash].setFragment(msg);
  let r3 := Table.subscript r2.1 hash (I.ctor now)
  let sf := I.setFragment now r3.2 msg
  let m4 := Table.assign r3.1 hash sf.1
  match sf.2 with
  | some res =>
    -- dispatch(res); m_incoming.erase(hash);
    { t with m_incoming := Table.erase m4 hash, bus := t.bus ++ [res], log := log2 }
  | none => { t with m_incoming := m4, log := log2 }

/-- Delivery of a sequence of fragments, each at its own time. -/
def consumeAll (I : IncomingMessageClass B M) (t : Task B M) :
    List (Time × MessagePart) → Task B M
  | [] => t
  | (now, msg) :: rest => consumeAll I (consume I now t msg) rest

/-- Undefined behaviour reached by the task. -/
inductive Undefined where
  /-- The step `it++` on an iterator whose node (of the given key) was erased. -/
  | incrementOfErasedIterator (key : Nat)
deriving DecidableEq, Repr

/-- Lines 99-106, the body of the loop of `messageRipper` at the node `e`: the new map
and log, and whether the node of `it` is still in the map. -/
def ripperBody (I : IncomingMessageClass B M) (now : Time) (max_age_secs : Time)
    (e : Nat × B) (s : Table B × List LogEntry) : (Table B × List LogEntry) × Bool :=
  let msg := e.2
  if I.getAge now msg > max_age_secs then
    ((Table.erase s.1 e.1, s.2 ++ [LogEntry.warRemoved (I.getFragmentsMissing msg)]), false)
  else (s, true)

/-- Lines 97-107, the loop of `messageRipper` with `it` at the head of the first
argument (`[]` is `m_incoming.end()`). After the body, `it++` steps to the next node;
on an iterator whose node the body erased, that step is undefined. -/
def ripperLoop (I : IncomingMessageClass B M) (now : Time) (max_age_secs : Time) :
    List (Nat × B) → Table B × List LogEntry → Except Undefined (Table B × List LogEntry)
  | [], s => Except.ok s
  | e :: rest, s =>
    let r := ripperBody I now max_age_secs e s
    if r.2 then ripperLoop I now max_age_secs rest r.1
    else Except.error (Undefined.incrementOfErasedIterator e.1)

/-- Lines 91-108, `Task::messageRipper`. -/
def messageRipper (I : IncomingMessageClass B M) (now : Time) (t : Task B M) :
    Except Undefined (Task B M) :=
  match ripperLoop I now t.m_args.max_age_secs t.m_incoming
      (t.m_incoming, t.log ++ [LogEntry.debugRipping]) with
  | Except.ok s => Except.ok { t with m_incoming := s.1, log := s.2 }
  | Except.error u => Except.error u

/-! ## The reassembly buffer of the specification -/

/-- Modelled from the spec: class `IncomingMessage` (`IncomingMessage.hpp`) is not among
the sources. This is the ReassemblyBuffer of the specification: creation time, the
expected fragment count (unset before the first ingestion) and the received payloads by
fragment index. -/
structure ReassemblyBuffer where
  created_at : Time
  expected_count : Option Nat
  received : List (Nat × Payload)
deriving DecidableEq, Repr

namespace ReassemblyBuffer

/-- Modelled from the spec: the payload recorded at a fragment index, if any. -/
def payloadAt : List (Nat × Payload) → Nat → Option Payload
  | [], _ => none
  | (j, p) :: rest, i => if j = i then some p else payloadAt rest i

/-- Modelled from the spec: a buffer as created by the table, with `created_at = now`
and nothing received. -/
def create (now : Time) : ReassemblyBuffer :=
  { created_at := now, expected_count := none, received := [] }

/-- Modelled from the spec: `missing_count`, `expected_count − received.size()`. -/
def missing_count (b : ReassemblyBuffer) : Int :=
  ((b.expected_count.getD 0 : Nat) : Int) - (b.received.length : Int)

/-- Modelled from the spec: `age(now)`, `now − created_at`. -/
def age (now : Time) (b : ReassemblyBuffer) : Time := now - b.created_at

/-- Modelled from the spec: the assembled message, the payloads concatenated in index
order `0..expected_count`. -/
def assemble (received : List (Nat × Payload)) (n : Nat) : Payload :=
  (List.range n).flatMap (fun i => (payloadAt received i).getD [])

/-- Modelled from the spec: `ingest`. A malformed fragment (index not below its declared
count, or a count that disagrees with the established `expected_count`) is ignored. The
first ingestion sets `expected_count`. The payload is recorded unless its index is
already present. After recording, a buffer with `received.size() == expected_count`
returns the assembled message. -/
def ingest (b : ReassemblyBuffer) (f : MessagePart) : ReassemblyBuffer × Option Payload :=
  if f.num_frags ≤ f.frag_number then (b, none)
  else if b.expected_count.isSome ∧ b.expected_count ≠ some f.num_frags then (b, none)
  else
    let received :=
      if (payloadAt b.received f.frag_number).isSome then b.received
      else (f.frag_number, f.data) :: b.received
    let b1 : ReassemblyBuffer := { b with expected_count := some f.num_frags, received := received }
    if received.length = f.num_frags then (b1, some (assemble received f.num_frags))
    else (b1, none)

end ReassemblyBuffer

/-- Modelled from the spec: the ReassemblyBuffer of the specification as the class
`IncomingMessage` of the task. -/
def specBuffer : IncomingMessageClass ReassemblyBuffer Payload where
  ctor := ReassemblyBuffer.create
  getFragmentsMissing := ReassemblyBuffer.missing_count
  setFragment := fun _ b f => ReassemblyBuffer.ingest b f
  getAge := ReassemblyBuffer.age

/-- An implementation of the class that only records the fragments handed to
`setFragment` (newest first) and never returns a message; it makes the routing done by
`consume` observable. -/
def recorder : IncomingMessageClass (List MessagePart) Unit where
  ctor := fun _ => []
  getFragmentsMissing := fun _ => 0
  setFragment := fun _ b f => (f :: b, none)
  getAge := fun _ _ => 0

/-- An empty task with the given timeout. -/
def Task.init (B M : Type) (max_age_secs : Time) : Task B M :=
  { m_incoming := [], m_args := { max_age_secs := max_age_secs }, bus := [], log := [] }

/-- The object on which `consume` calls `setFragment`: the one stored under the routing
key of `msg`, or the one constructed by `consume` when there is none. -/
def routedBuffer (I : IncomingMessageClass B M) (now : Time) (t : Task B M)
    (msg : MessagePart) : B :=
  (Table.find t.m_incoming (hashKey msg.uid msg.source)).getD (I.ctor now)

/-- The map of `consume` before the call of `setFragment`: the routing key is present
and holds `routedBuffer`. -/
def preparedTable (I : IncomingMessageClass B M) (now : Time) (t : Task B M)
    (msg : MessagePart) : Table B :=
  match Table.find t.m_incoming (hashKey msg.uid msg.source) with
  | none => Table.insert t.m_incoming (hashKey msg.uid msg.source) (I.ctor now)
  | some _ => t.m_incoming

/-- The buffer `b` holds exactly the fragments with index in `S` of the message with `n`
fragments and payloads `payload`. -/
def Holds (n : Nat) (payload : Nat → Payload) (S : Finset Nat) (b : ReassemblyBuffer) : Prop :=
  (b.expected_count = none ∨ b.expected_count = some n) ∧
  (∀ j, ReassemblyBuffer.payloadAt b.received j = if j ∈ S then some (payload j) else none) ∧
  b.received.length = S.card

/-- The table `m` holds under key `k` exactly the fragments with index in `S`: no buffer
when `S` is empty, a buffer with those fragments otherwise. -/
def TableHolds (n : Nat) (payload : Nat → Payload) (k : Nat) (S : Finset Nat)
    (m : Table ReassemblyBuffer) : Prop :=
  match Table.find m k with
  | none => S = ∅
  | some b => S.Nonempty ∧ Holds n payload S b

/-- Member `i` of the fragment set of one message: group `uid`, sender `source`,
`n` fragments, payload `payload i` at index `i`. -/
def fragmentOf (uid source n : Nat) (payload : Nat → Payload) (i : Nat) : MessagePart :=
  { uid := uid, source := source, frag_number := i, num_frags := n, data := payload i }

/-- The fragments of `fragmentOf` delivered at the given times, by index. -/
def delivery (uid source n : Nat) (payload : Nat → Payload) (evs : List (Time × Nat)) :
    List (Time × MessagePart) :=
  evs.map (fun e => (e.1, fragmentOf uid source n payload e.2))

/-- A buffer as `consume` leaves it in the table: nothing received and no expected count
yet, or at least one and fewer than `expected_count` fragments received. -/
def Pending (b : ReassemblyBuffer) : Prop :=
  (b.expected_count = none ∧ b.received = []) ∨
  (∃ n, b.expected_count = some n ∧ 1 ≤ b.received.length ∧ b.received.length < n)

/-- The states of the task, over the buffer of the specification, that are reached from
the empty table by calls of `consume` and by calls of `messageRipper` that return. -/
inductive Reachable (max_age_secs : Time) : Task ReassemblyBuffer Payload → Prop where
  | start : Reachable max_age_secs (Task.init ReassemblyBuffer Payload max_age_secs)
  | fragment (t : Task ReassemblyBuffer Payload) (now : Time) (msg : MessagePart) :
      Reachable max_age_secs t → Reachable max_age_secs (consume specBuffer now t msg)
  | sweep (t t1 : Task ReassemblyBuffer Payload) (now : Time) :
      Reachable max_age_secs t → messageRipper specBuffer now t = Except.ok t1 →
      Reachable max_age_secs t1

end Transports.Fragments

/-! # Sensors.WeatherStation: the message handlers

A shallow embedding of the three `consume` handlers of
`src/Sensors/WeatherStation/Task.cpp` and of the members they read and write. The type
`float` is a parameter `F`; the handlers only compare floats with integer literals by
`!=`, and that comparison is the parameter `FloatNe`. -/

namespace Sensors.WeatherStation

/-- The comparison `x != n` of a `float` with an integer literal. -/
structure FloatNe (F : Type) where
  ne : F → Int → Bool

/-- The members of `Arguments` the handlers read. -/
structure Arguments (F : Type) where
  temp_sim : F
  humidity_sim : F
  windspeed_sim : F

/-- Warnings written by the handlers. -/
inductive Warning where
  | conflictingTemperature
  | conflictingWindspeed
  | conflictingHumidity
deriving DecidableEq, Repr

/-- The members of the task the handlers read and write, and the warnings written so
far (oldest first). -/
structure Task (F : Type) where
  args : Arguments F
  temp_sim : F
  temp_tm : Int
  temp_conflicting : Bool
  humidity_sim : F
  humidity_tm : Int
  humidity_conflicting : Bool
  windspeed_sim : F
  winddirection_sim : F
  wind_conflicting : Bool
  wind_tm : Int
  log : List Warning

/-- The task after construction (lines 109-163): the timeouts are 0 and the three flags
`false`; the float members have no initialiser and the arguments are whatever the
configuration holds. -/
def Task.initial {F : Type} (args : Arguments F)
    (temp_sim humidity_sim windspeed_sim winddirection_sim : F) : Task F :=
  { args := args, temp_sim := temp_sim, temp_tm := 0, temp_conflicting := false,
    humidity_sim := humidity_sim, humidity_tm := 0, humidity_conflicting := false,
    windspeed_sim := windspeed_sim, winddirection_sim := winddirection_sim,
    wind_conflicting := false, wind_tm := 0, log := [] }

/-- Lines 237-249, `consume(const IMC::Temperature* msg)`. -/
def consumeTemperature {F : Type} (C : FloatNe F) (t : Task F) (value : F) : Task F :=
  let t1 :=
    if t.temp_conflicting && C.ne t.args.temp_sim 20 then
      { t with log := t.log ++ [Warning.conflictingTemperature], temp_conflicting := true }
    else t
  let t2 := { t1 with temp_tm := 0 }
  if C.ne value 0 then { t2 with temp_sim := value } else t2

/-- Lines 251-266, `consume(const IMC::WindSpeed* msg)`. -/
def consumeWindSpeed {F : Type} (C : FloatNe F) (t : Task F) (speed direction : F) : Task F :=
  let t1 := { t with wind_tm := 0 }
  let t2 :=
    if t1.wind_conflicting && C.ne t1.args.windspeed_sim 10 then
      { t1 with log := t1.log ++ [Warning.conflictingWindspeed], wind_conflicting := true }
    else t1
  let t3 := if C.ne speed 0 then { t2 with windspeed_sim := speed } else t2
  if C.ne direction 0 then { t3 with winddirection_sim := direction } else t3

/-- Lines 268-280, `consume(const IMC::RelativeHumidity* msg)`. -/
def consumeRelativeHumidity {F : Type} (C : FloatNe F) (t : Task F) (value : F) : Task F :=
  let t1 :=
    if t.humidity_conflicting && C.ne t.args.humidity_sim 10 then
      { t with log := t.log ++ [Warning.conflictingHumidity], wind_conflicting := true }
    else t
  let t2 := { t1 with humidity_tm := 0 }
  if C.ne value 0 then { t2 with humidity_sim := value } else t2

/-- An inbound message of one of the three bound types, with its float fields. -/
inductive Inbound (F : Type) where
  | temperature (value : F)
  | windSpeed (speed direction : F)
  | relativeHumidity (value : F)

/-- Delivery of one inbound message to its handler. -/
def deliver {F : Type} (C : FloatNe F) (t : Task F) : Inbound F → Task F
  | Inbound.temperature value => consumeTemperature C t value
  | Inbound.windSpeed speed direction => consumeWindSpeed C t speed direction
  | Inbound.relativeHumidity value => consumeRelativeHumidity C t value

/-- Delivery of a sequence of inbound messages, in order. -/
def deliverAll {F : Type} (C : FloatNe F) (t : Task F) : List (Inbound F) → Task F
  | [] => t
  | m :: rest => deliverAll C (deliver C t m) rest

end Sensors.WeatherStation

namespace Transports.Fragments

variable {B M : Type}

/-! ## The routing key -/

theorem hashKey_eq_of_lt {g s : Nat} (hg : g < 2 ^ 16) (hs : s < 2 ^ 16) :
    hashKey g s = g * 2 ^ 16 + s := by
  unfold hashKey
  rw [Nat.shiftLeft_eq, Nat.mul_comm g, ← Nat.mul_add_lt_is_or hs g]
  apply Nat.mod_eq_of_lt
  omega

/-- C9. For identifiers below 2^16, two routing keys are equal exactly when both the
group identifiers and the source identifiers are equal. -/
theorem hashKey_eq_iff (g s g' s' : Nat) (hg : g < 2 ^ 16) (hs : s < 2 ^ 16)
    (hg' : g' < 2 ^ 16) (hs' : s' < 2 ^ 16) :
    hashKey g s = hashKey g' s' ↔ g = g' ∧ s = s' := by
  rw [hashKey_eq_of_lt hg hs, hashKey_eq_of_lt hg' hs']
  constructor
  · intro h
    omega
  · rintro ⟨rfl, rfl⟩
    rfl

theorem hashKey_eq_iff_witness :
    (hashKey 7 513 = hashKey 7 513 ↔ 7 = 7 ∧ 513 = 513) ∧
    (hashKey 7 513 = hashKey 513 7 ↔ 7 = 513 ∧ 513 = 7) :=
  ⟨hashKey_eq_iff 7 513 7 513 (by decide) (by decide) (by decide) (by decide),
   hashKey_eq_iff 7 513 513 7 (by decide) (by decide) (by decide) (by decide)⟩

/-! ## Map lemmas -/

namespace Table

theorem find_insert_self (m : Table B) (k : Nat) (b : B) (h : find m k = none) :
    find (insert m k b) k = some b := by
  induction m with
  | nil => simp [insert, find]
  | cons e rest ih =>
    obtain ⟨k', b'⟩ := e
    simp only [find] at h
    by_cases hk : k' = k
    · simp [hk] at h
    · simp only [hk, if_false] at h
      simp only [insert]
      split
      · simp [find]
      · simp [find, hk, ih h]

theorem find_insert_ne (m : Table B) (k k' : Nat) (b : B) (h : k' ≠ k) :
    find (insert m k b) k' = find m k' := by
  induction m with
  | nil => simp [insert, find, h.symm]
  | cons e rest ih =>
    obtain ⟨k1, b1⟩ := e
    simp only [insert]
    split
    · simp [find, h.symm]
    · simp only [find, ih]

theorem find_assign_self (m : Table B) (k : Nat) (b : B) :
    find (assign m k b) k = (find m k).map (fun _ => b) := by
  induction m with
  | nil => simp [assign, find]
  | cons e rest ih =>
    obtain ⟨k1, b1⟩ := e
    by_cases hk : k1 = k
    · simp [assign, find, hk]
    · simp [assign, find, hk, ih]

theorem find_assign_ne (m : Table B) (k k' : Nat) (b : B) (h : k' ≠ k) :
    find (assign m k b) k' = find m k' := by
  induction m with
  | nil => simp [assign, find]
  | cons e rest ih =>
    obtain ⟨k1, b1⟩ := e
    by_cases hk : k1 = k
    · subst hk
      simp [assign, find, h.symm]
    · simp only [assign, hk, if_false, find, ih]

theorem assign_self (m : Table B) (k : Nat) (b : B) (h : find m k = some b) :
    assign m k b = m := by
  induction m with
  | nil => simp [assign]
  | cons e rest ih =>
    obtain ⟨k1, b1⟩ := e
    by_cases hk : k1 = k
    · simp [find, hk] at h
      simp [assign, hk, h]
    · simp only [find, hk, if_false] at h
      simp [assign, hk, ih h]

theorem keys_assign (m : Table B) (k : Nat) (b : B) : keys (assign m k b) = keys m := by
  induction m with
  | nil => simp [assign]
  | cons e rest ih =>
    obtain ⟨k1, b1⟩ := e
    by_cases hk : k1 = k
    · simp [assign, keys, hk]
    · simp only [keys] at ih
      simp [assign, keys, hk, ih]

theorem find_erase_self (m : Table B) (k : Nat) : find (erase m k) k = none := by
  induction m with
  | nil => simp [erase, find]
  | cons e rest ih =>
    obtain ⟨k1, b1⟩ := e
    by_cases hk : k1 = k
    · simp [erase, hk, ih]
    · simp [erase, hk, find, ih]

theorem find_erase_ne (m : Table B) (k k' : Nat) (h : k' ≠ k) :
    find (erase m k) k' = find m k' := by
  induction m with
  | nil => simp [erase, find]
  | cons e rest ih =>
    obtain ⟨k1, b1⟩ := e
    by_cases hk : k1 = k
    · subst hk
      simp [erase, find, h.symm, ih]
    · simp [erase, hk, find, ih]

theorem erase_of_find_none (m : Table B) (k : Nat) (h : find m k = none) :
    erase m k = m := by
  induction m with
  | nil => simp [erase]
  | cons e rest ih =>
    obtain ⟨k1, b1⟩ := e
    by_cases hk : k1 = k
    · simp [find, hk] at h
    · simp only [find, hk, if_false] at h
      simp [erase, hk, ih h]

end Table

/-! ## Effect of `consume` -/

theorem find_preparedTable (I : IncomingMessageClass B M) (now : Time) (t : Task B M)
    (msg : MessagePart) :
    Table.find (preparedTable I now t msg) (hashKey msg.uid msg.source)
      = some (routedBuffer I now t msg) := by
  unfold preparedTable routedBuffer
  cases h : Table.find t.m_incoming (hashKey msg.uid msg.source) with
  | none => simp [Table.find_insert_self _ _ _ h]
  | some b => simp [h]

theorem find_preparedTable_ne (I : IncomingMessageClass B M) (now : Time) (t : Task B M)
    (msg : MessagePart) (k : Nat) (hk : k ≠ hashKey msg.uid msg.source) :
    Table.find (preparedTable I now t msg) k = Table.find t.m_incoming k := by
  unfold preparedTable
  cases h : Table.find t.m_incoming (hashKey msg.uid msg.source) with
  | none => simp [Table.find_insert_ne _ _ _ _ hk]
  | some b => simp

/-- The statements of `consume` in terms of `preparedTable` and `routedBuffer`. -/
theorem consume_eq (I : IncomingMessageClass B M) (now : Time) (t : Task B M)
    (msg : MessagePart) :
    consume I now t msg =
      match (I.setFragment now (routedBuffer I now t msg) msg).2 with
      | some res =>
        { t with
          m_incoming := Table.erase (Table.assign (preparedTable I now t msg)
            (hashKey msg.uid msg.source)
            (I.setFragment now (routedBuffer I now t msg) msg).1) (hashKey msg.uid msg.source),
          bus := t.bus ++ [res],
          log := t.log ++ [LogEntry.debugStillMissing
            (I.getFragmentsMissing (routedBuffer I now t msg))] }
      | none =>
        { t with
          m_incoming := Table.assign (preparedTable I now t msg)
            (hashKey msg.uid msg.source)
            (I.setFragment now (routedBuffer I now t msg) msg).1,
          log := t.log ++ [LogEntry.debugStillMissing
            (I.getFragmentsMissing (routedBuffer I now t msg))] } := by
  unfold consume routedBuffer preparedTable
  cases h : Table.find t.m_incoming (hashKey msg.uid msg.source) with
  | none =>
    have h1 := Table.find_insert_self t.m_incoming (hashKey msg.uid msg.source) (I.ctor now) h
    have h2 : Table.assign (Table.insert t.m_incoming (hashKey msg.uid msg.source) (I.ctor now))
        (hashKey msg.uid msg.source) (I.ctor now)
        = Table.insert t.m_incoming (hashKey msg.uid msg.source) (I.ctor now) :=
      Table.assign_self _ _ _ h1
    simp only [Table.subscript, h, h1, h2, Option.getD_none]
  | some b =>
    simp only [Table.subscript, h, Option.getD_some]

theorem consume_bus (I : IncomingMessageClass B M) (now : Time) (t : Task B M)
    (msg : MessagePart) :
    (consume I now t msg).bus
      = t.bus ++ (I.setFragment now (routedBuffer I now t msg) msg).2.toList := by
  rw [consume_eq]
  cases (I.setFragment now (routedBuffer I now t msg) msg).2 <;> simp

theorem consume_args (I : IncomingMessageClass B M) (now : Time) (t : Task B M)
    (msg : MessagePart) : (consume I now t msg).m_args = t.m_args := by
  rw [consume_eq]
  cases (I.setFragment now (routedBuffer I now t msg) msg).2 <;> simp

theorem consume_find_self (I : IncomingMessageClass B M) (now : Time) (t : Task B M)
    (msg : MessagePart) :
    Table.find (consume I now t msg).m_incoming (hashKey msg.uid msg.source)
      = match (I.setFragment now (routedBuffer I now t msg) msg).2 with
        | some _ => none
        | none => some (I.setFragment now (routedBuffer I now t msg) msg).1 := by
  rw [consume_eq]
  cases (I.setFragment now (routedBuffer I now t msg) msg).2 with
  | some res => simp [Table.find_erase_self]
  | none => simp [Table.find_assign_self, find_preparedTable]

theorem consume_find_ne (I : IncomingMessageClass B M) (now : Time) (t : Task B M)
    (msg : MessagePart) (k : Nat) (hk : k ≠ hashKey msg.uid msg.source) :
    Table.find (consume I now t msg).m_incoming k = Table.find t.m_incoming k := by
  rw [consume_eq]
  cases (I.setFragment now (routedBuffer I now t msg) msg).2 with
  | some res =>
    simp [Table.find_erase_ne _ _ _ hk, Table.find_assign_ne _ _ _ _ hk,
      find_preparedTable_ne _ _ _ _ _ hk]
  | none =>
    simp [Table.find_assign_ne _ _ _ _ hk, find_preparedTable_ne _ _ _ _ _ hk]

/-! ## Completion and isolation -/

/-- C1. Whenever `setFragment`, called on the buffer of the routing key of the inbound
fragment, returns a message, `consume` adds exactly that message, once, to the bus and
returns with no buffer stored under that routing key. -/
theorem consume_dispatches_assembled (I : IncomingMessageClass B M) (now : Time)
    (t : Task B M) (msg : MessagePart) (res : M)
    (h : (I.setFragment now (routedBuffer I now t msg) msg).2 = some res) :
    (consume I now t msg).bus = t.bus ++ [res] ∧
    Table.find (consume I now t msg).m_incoming (hashKey msg.uid msg.source) = none := by
  refine ⟨?_, ?_⟩
  · rw [consume_bus, h]
    rfl
  · rw [consume_find_self, h]

theorem consume_dispatches_assembled_witness :
    (specBuffer.setFragment 0
        (routedBuffer specBuffer 0 (Task.init ReassemblyBuffer Payload 1800) ⟨3, 9, 0, 1, [104, 105]⟩)
        ⟨3, 9, 0, 1, [104, 105]⟩).2 = some [104, 105] ∧
    ((consume specBuffer 0 (Task.init ReassemblyBuffer Payload 1800) ⟨3, 9, 0, 1, [104, 105]⟩).bus
        = [] ++ [[104, 105]] ∧
      Table.find
        (consume specBuffer 0 (Task.init ReassemblyBuffer Payload 1800)
          ⟨3, 9, 0, 1, [104, 105]⟩).m_incoming (hashKey 3 9) = none) :=
  ⟨by decide,
   consume_dispatches_assembled specBuffer 0 (Task.init ReassemblyBuffer Payload 1800)
     ⟨3, 9, 0, 1, [104, 105]⟩ [104, 105] (by decide)⟩

/-- C7. `consume` of a fragment with routing key `k` leaves the entry under every other
key as it was: stored with the same buffer, or absent. -/
theorem consume_isolation (I : IncomingMessageClass B M) (now : Time) (t : Task B M)
    (msg : MessagePart) (k : Nat) (hk : k ≠ hashKey msg.uid msg.source) :
    Table.find (consume I now t msg).m_incoming k = Table.find t.m_incoming k :=
  consume_find_ne I now t msg k hk

theorem consume_isolation_witness :
    (5 : Nat) ≠ hashKey 3 9 ∧
    Table.find (consume specBuffer 7
        { m_incoming := [(5, ReassemblyBuffer.create 1)], m_args := ⟨1800⟩, bus := [], log := [] }
        ⟨3, 9, 0, 1, [104, 105]⟩).m_incoming 5
      = Table.find [(5, ReassemblyBuffer.create 1)] 5 :=
  ⟨by decide,
   consume_isolation specBuffer 7
     { m_incoming := [(5, ReassemblyBuffer.create 1)], m_args := ⟨1800⟩, bus := [], log := [] }
     ⟨3, 9, 0, 1, [104, 105]⟩ 5 (by decide)⟩

/-- C10. Outside the 16-bit range the routing key loses information: the distinct pairs
(group 1, source 0) and (group 0, source 65536) have the same key, and `consume` hands
a fragment of each to the same buffer. -/
theorem hashKey_collision :
    ∃ g s g' s' : Nat, (g, s) ≠ (g', s') ∧
      (2 ^ 16 ≤ g ∨ 2 ^ 16 ≤ s ∨ 2 ^ 16 ≤ g' ∨ 2 ^ 16 ≤ s') ∧
      hashKey g s = hashKey g' s' ∧
      (consumeAll recorder (Task.init (List MessagePart) Unit 1800)
          [(0, ⟨g, s, 0, 2, [10]⟩), (1, ⟨g', s', 1, 2, [20]⟩)]).m_incoming
        = [(hashKey g s, [⟨g', s', 1, 2, [20]⟩, ⟨g, s, 0, 2, [10]⟩])] :=
  ⟨1, 0, 0, 65536, by decide, by decide, by decide, by decide⟩

/-! ## Ingestion into the buffer of the specification -/

theorem holds_create (n : Nat) (payload : Nat → Payload) (now : Time) :
    Holds n payload ∅ (ReassemblyBuffer.create now) := by
  refine ⟨Or.inl rfl, ?_, rfl⟩
  intro j
  simp [ReassemblyBuffer.create, ReassemblyBuffer.payloadAt]

/-- Ingestion of fragment `i` that leaves the message incomplete returns nothing and
records the fragment. -/
theorem ingest_incomplete (uid source n : Nat) (payload : Nat → Payload) (S : Finset Nat)
    (b : ReassemblyBuffer) (i : Nat) (hb : Holds n payload S b) (hi : i < n)
    (hcard : (insert i S).card < n) :
    ∃ b1, ReassemblyBuffer.ingest b (fragmentOf uid source n payload i) = (b1, none) ∧
      Holds n payload (insert i S) b1 := by
  obtain ⟨hexp, hpay, hlen⟩ := hb
  have h1 : ¬ n ≤ i := by omega
  have h2 : ¬ (b.expected_count.isSome ∧ b.expected_count ≠ some n) := by
    rcases hexp with h | h <;> simp [h]
  by_cases hmem : i ∈ S
  · have hins : insert i S = S := Finset.insert_eq_of_mem hmem
    rw [hins] at hcard ⊢
    have h3 : (ReassemblyBuffer.payloadAt b.received i).isSome = true := by
      rw [hpay i]; simp [hmem]
    have h4 : ¬ b.received.length = n := by omega
    refine ⟨{ b with expected_count := some n }, ?_, ?_⟩
    · simp only [ReassemblyBuffer.ingest, fragmentOf, h1, h2, h3, h4, if_false, if_true]
    · exact ⟨Or.inr rfl, hpay, hlen⟩
  · have hc : (insert i S).card = S.card + 1 := Finset.card_insert_of_not_mem hmem
    have h3 : (ReassemblyBuffer.payloadAt b.received i).isSome = false := by
      rw [hpay i]; simp [hmem]
    have h4 : ¬ ((i, payload i) :: b.received).length = n := by
      simp only [List.length_cons]; omega
    refine ⟨{ b with expected_count := some n, received := (i, payload i) :: b.received },
      ?_, ?_⟩
    · simp only [ReassemblyBuffer.ingest, fragmentOf, h1, h2, h3, h4, if_false,
        Bool.false_eq_true]
    · refine ⟨Or.inr rfl, ?_, ?_⟩
      · intro j
        simp only [ReassemblyBuffer.payloadAt, Finset.mem_insert]
        by_cases hj : i = j
        · subst hj; simp
        · have hj2 : ¬ j = i := fun h => hj h.symm
          simp [hj, hj2, hpay j]
      · simp only [List.length_cons]; omega

/-- Ingestion of the last missing fragment returns the payloads concatenated in index
order. -/
theorem ingest_complete (uid source n : Nat) (payload : Nat → Payload) (S : Finset Nat)
    (b : ReassemblyBuffer) (i : Nat) (hb : Holds n payload S b) (hi : i < n)
    (hmem : i ∉ S) (hS : ∀ j ∈ S, j < n) (hcard : S.card + 1 = n) :
    ∃ b1, ReassemblyBuffer.ingest b (fragmentOf uid source n payload i)
      = (b1, some ((List.range n).flatMap payload)) := by
  obtain ⟨hexp, hpay, hlen⟩ := hb
  have h1 : ¬ n ≤ i := by omega
  have h2 : ¬ (b.expected_count.isSome ∧ b.expected_count ≠ some n) := by
    rcases hexp with h | h <;> simp [h]
  have h3 : (ReassemblyBuffer.payloadAt b.received i).isSome = false := by
    rw [hpay i]; simp [hmem]
  have h4 : ((i, payload i) :: b.received).length = n := by
    simp only [List.length_cons]; omega
  have hfull : insert i S = Finset.range n := by
    apply Finset.eq_of_subset_of_card_le
    · intro j hj
      rcases Finset.mem_insert.mp hj with h | h
      · simpa [h] using hi
      · simpa using hS j h
    · rw [Finset.card_insert_of_not_mem hmem, Finset.card_range]; omega
  have hall : ∀ j ∈ List.range n,
      (ReassemblyBuffer.payloadAt ((i, payload i) :: b.received) j).getD [] = payload j := by
    intro j hj
    have hjn : j < n := List.mem_range.mp hj
    have hjS : j ∈ insert i S := by rw [hfull]; simpa using hjn
    simp only [ReassemblyBuffer.payloadAt]
    by_cases hij : i = j
    · subst hij; simp
    · have : j ∈ S := by
        rcases Finset.mem_insert.mp hjS with h | h
        · exact absurd h.symm hij
        · exact h
      simp [hij, hpay j, this]
  refine ⟨{ b with expected_count := some n, received := (i, payload i) :: b.received }, ?_⟩
  simp only [ReassemblyBuffer.ingest, fragmentOf, h1, h2, h3, h4, if_false, if_true,
    Bool.false_eq_true, ReassemblyBuffer.assemble]
  rw [List.flatMap_congr hall]

/-! ## Delivery of the fragments of one message -/

theorem holds_routedBuffer (uid source n : Nat) (payload : Nat → Payload) (S : Finset Nat)
    (t : Task ReassemblyBuffer Payload) (now : Time) (i : Nat)
    (ht : TableHolds n payload (hashKey uid source) S t.m_incoming) :
    Holds n payload S (routedBuffer specBuffer now t (fragmentOf uid source n payload i)) := by
  unfold TableHolds at ht
  unfold routedBuffer
  simp only [fragmentOf]
  cases h : Table.find t.m_incoming (hashKey uid source) with
  | none =>
    rw [h] at ht
    subst ht
    exact holds_create n payload now
  | some b =>
    rw [h] at ht
    exact ht.2

/-- One `consume` that leaves the message incomplete: nothing is dispatched and the
buffer under the routing key holds one more index. -/
theorem consume_incomplete (uid source n : Nat) (payload : Nat → Payload) (S : Finset Nat)
    (t : Task ReassemblyBuffer Payload) (now : Time) (i : Nat)
    (ht : TableHolds n payload (hashKey uid source) S t.m_incoming) (hi : i < n)
    (hcard : (insert i S).card < n) :
    (consume specBuffer now t (fragmentOf uid source n payload i)).bus = t.bus ∧
    TableHolds n payload (hashKey uid source) (insert i S)
      (consume specBuffer now t (fragmentOf uid source n payload i)).m_incoming := by
  obtain ⟨b1, hb1, hh⟩ := ingest_incomplete uid source n payload S _ i
    (holds_routedBuffer uid source n payload S t now i ht) hi hcard
  have hsf : specBuffer.setFragment now
      (routedBuffer specBuffer now t (fragmentOf uid source n payload i))
      (fragmentOf uid source n payload i) = (b1, none) := hb1
  refine ⟨?_, ?_⟩
  · rw [consume_bus, hsf]; simp
  · have := consume_find_self specBuffer now t (fragmentOf uid source n payload i)
    rw [hsf] at this
    unfold TableHolds
    have hk : hashKey (fragmentOf uid source n payload i).uid
        (fragmentOf uid source n payload i).source = hashKey uid source := rfl
    rw [hk] at this
    rw [this]
    exact ⟨Finset.insert_nonempty i S, hh⟩

/-- The `consume` of the last missing fragment: the assembled message is dispatched and
the buffer is removed. -/
theorem consume_complete (uid source n : Nat) (payload : Nat → Payload) (S : Finset Nat)
    (t : Task ReassemblyBuffer Payload) (now : Time) (i : Nat)
    (ht : TableHolds n payload (hashKey uid source) S t.m_incoming) (hi : i < n)
    (hmem : i ∉ S) (hS : ∀ j ∈ S, j < n) (hcard : S.card + 1 = n) :
    (consume specBuffer now t (fragmentOf uid source n payload i)).bus
      = t.bus ++ [(List.range n).flatMap payload] ∧
    Table.find (consume specBuffer now t (fragmentOf uid source n payload i)).m_incoming
      (hashKey uid source) = none := by
  obtain ⟨b1, hb1⟩ := ingest_complete uid source n payload S _ i
    (holds_routedBuffer uid source n payload S t now i ht) hi hmem hS hcard
  have hsf : specBuffer.setFragment now
      (routedBuffer specBuffer now t (fragmentOf uid source n payload i))
      (fragmentOf uid source n payload i) = (b1, some ((List.range n).flatMap payload)) := hb1
  refine ⟨?_, ?_⟩
  · rw [consume_bus, hsf]; simp
  · have := consume_find_self specBuffer now t (fragmentOf uid source n payload i)
    rw [hsf] at this
    exact this

theorem consumeAll_append (I : IncomingMessageClass B M) (t : Task B M)
    (l1 l2 : List (Time × MessagePart)) :
    consumeAll I t (l1 ++ l2) = consumeAll I (consumeAll I t l1) l2 := by
  induction l1 generalizing t with
  | nil => rfl
  | cons e rest ih =>
    obtain ⟨now, msg⟩ := e
    show consumeAll I (consume I now t msg) (rest ++ l2)
      = consumeAll I (consumeAll I (consume I now t msg) rest) l2
    exact ih _

/-- Deliveries that together leave the message incomplete dispatch nothing and
accumulate their indices in the buffer of the routing key. -/
theorem consumeAll_incomplete (uid source n : Nat) (payload : Nat → Payload)
    (evs : List (Time × Nat)) (S : Finset Nat) (t : Task ReassemblyBuffer Payload)
    (ht : TableHolds n payload (hashKey uid source) S t.m_incoming)
    (hidx : ∀ e ∈ evs, e.2 < n)
    (hcard : (S ∪ (evs.map Prod.snd).toFinset).card < n) :
    (consumeAll specBuffer t (delivery uid source n payload evs)).bus = t.bus ∧
    TableHolds n payload (hashKey uid source) (S ∪ (evs.map Prod.snd).toFinset)
      (consumeAll specBuffer t (delivery uid source n payload evs)).m_incoming := by
  induction evs generalizing S t with
  | nil => simpa [delivery, consumeAll] using ht
  | cons e rest ih =>
    obtain ⟨now, i⟩ := e
    have hset : S ∪ (((now, i) :: rest).map Prod.snd).toFinset
        = insert i S ∪ (rest.map Prod.snd).toFinset := by
      ext j
      simp only [List.map_cons, List.toFinset_cons, Finset.mem_union, Finset.mem_insert]
      tauto
    rw [hset] at hcard ⊢
    have hi : i < n := hidx (now, i) (List.mem_cons_self _ _)
    have hc1 : (insert i S).card < n :=
      lt_of_le_of_lt (Finset.card_le_card Finset.subset_union_left) hcard
    obtain ⟨hbus, hth⟩ := consume_incomplete uid source n payload S t now i ht hi hc1
    have := ih (insert i S) (consume specBuffer now t (fragmentOf uid source n payload i)) hth
      (fun e he => hidx e (List.mem_cons_of_mem _ he)) hcard
    simp only [delivery, List.map_cons, consumeAll] at this ⊢
    exact ⟨this.1.trans hbus, this.2⟩

/-- C4. No premature dispatch: starting without a buffer for the group, any non-empty
sequence of `consume` calls that delivers fragments of one message (declared count `n`)
and misses at least one index of `[0, n)` dispatches nothing and leaves the buffer of the
group in the table. -/
theorem no_premature_dispatch (uid source n : Nat) (payload : Nat → Payload)
    (t : Task ReassemblyBuffer Payload) (evs : List (Time × Nat))
    (ht : Table.find t.m_incoming (hashKey uid source) = none)
    (hne : evs ≠ [])
    (hidx : ∀ e ∈ evs, e.2 < n)
    (hmiss : ∃ j, j < n ∧ j ∉ evs.map Prod.snd) :
    (consumeAll specBuffer t (delivery uid source n payload evs)).bus = t.bus ∧
    (Table.find (consumeAll specBuffer t (delivery uid source n payload evs)).m_incoming
      (hashKey uid source)).isSome = true := by
  obtain ⟨j, hj, hjn⟩ := hmiss
  have h0 : TableHolds n payload (hashKey uid source) ∅ t.m_incoming := by
    unfold TableHolds; rw [ht]
  have hsub : (evs.map Prod.snd).toFinset ⊆ (Finset.range n).erase j := by
    intro k hk
    have hk1 : k ∈ evs.map Prod.snd := List.mem_toFinset.mp hk
    obtain ⟨e, he, rfl⟩ := List.mem_map.mp hk1
    refine Finset.mem_erase.mpr ⟨?_, Finset.mem_range.mpr (hidx e he)⟩
    rintro rfl
    exact hjn hk1
  have hcard : (∅ ∪ (evs.map Prod.snd).toFinset).card < n := by
    rw [Finset.empty_union]
    have h1 := Finset.card_le_card hsub
    rw [Finset.card_erase_of_mem (Finset.mem_range.mpr hj), Finset.card_range] at h1
    omega
  obtain ⟨hbus, hth⟩ := consumeAll_incomplete uid source n payload evs ∅ t h0 hidx hcard
  refine ⟨hbus, ?_⟩
  unfold TableHolds at hth
  cases hf : Table.find (consumeAll specBuffer t (delivery uid source n payload evs)).m_incoming
      (hashKey uid source) with
  | some b => rfl
  | none =>
    rw [hf] at hth
    exfalso
    cases evs with
    | nil => exact hne rfl
    | cons e rest =>
      have hmem : e.2 ∈ (∅ : Finset Nat) ∪ ((e :: rest).map Prod.snd).toFinset := by simp
      rw [hth] at hmem
      simp at hmem

theorem no_premature_dispatch_witness :
    Table.find (Task.init ReassemblyBuffer Payload 1800).m_incoming (hashKey 4 2) = none ∧
    ((consumeAll specBuffer (Task.init ReassemblyBuffer Payload 1800)
        (delivery 4 2 3 (fun i => [i, i + 10]) [(0, 2), (1, 0), (2, 2)])).bus
      = (Task.init ReassemblyBuffer Payload 1800).bus ∧
     (Table.find (consumeAll specBuffer (Task.init ReassemblyBuffer Payload 1800)
        (delivery 4 2 3 (fun i => [i, i + 10]) [(0, 2), (1, 0), (2, 2)])).m_incoming
      (hashKey 4 2)).isSome = true) :=
  ⟨by decide,
   no_premature_dispatch 4 2 3 (fun i => [i, i + 10]) (Task.init ReassemblyBuffer Payload 1800)
     [(0, 2), (1, 0), (2, 2)] (by decide) (by decide) (by decide) ⟨1, by decide, by decide⟩⟩

/-- A re-delivered index leaves an open buffer as it is and returns nothing. -/
theorem ingest_duplicate (b : ReassemblyBuffer) (f : MessagePart)
    (hopen : 0 < b.missing_count)
    (hdup : (ReassemblyBuffer.payloadAt b.received f.frag_number).isSome = true) :
    ReassemblyBuffer.ingest b f = (b, none) := by
  unfold ReassemblyBuffer.ingest
  by_cases h1 : f.num_frags ≤ f.frag_number
  · simp [h1]
  · by_cases h2 : b.expected_count.isSome ∧ b.expected_count ≠ some f.num_frags
    · rw [if_neg h1, if_pos h2]
    · obtain ⟨created, expected, received⟩ := b
      cases expected with
      | none =>
        simp [ReassemblyBuffer.missing_count] at hopen
        omega
      | some m =>
        simp only [Option.isSome_some, true_and, ne_eq, Option.some.injEq, not_not] at h2
        subst h2
        simp only [ReassemblyBuffer.missing_count, Option.getD_some] at hopen
        have h4 : ¬ received.length = f.num_frags := by omega
        simp only at hdup
        simp [hdup, h4]

/-- C6. Duplicate idempotence: when the buffer of the group is open and already holds
the index of the inbound fragment, `consume` leaves the table as it was (same keys, same
buffer under the group key, hence the same missing count and stored payloads) and
dispatches nothing. -/
theorem duplicate_idempotence (t : Task ReassemblyBuffer Payload) (now : Time)
    (f : MessagePart) (b : ReassemblyBuffer)
    (hb : Table.find t.m_incoming (hashKey f.uid f.source) = some b)
    (hopen : 0 < b.missing_count)
    (hdup : (ReassemblyBuffer.payloadAt b.received f.frag_number).isSome = true) :
    (consume specBuffer now t f).m_incoming = t.m_incoming ∧
    Table.keys (consume specBuffer now t f).m_incoming = Table.keys t.m_incoming ∧
    Table.find (consume specBuffer now t f).m_incoming (hashKey f.uid f.source) = some b ∧
    (consume specBuffer now t f).bus = t.bus := by
  have hr : routedBuffer specBuffer now t f = b := by
    unfold routedBuffer; rw [hb]; rfl
  have hsf : specBuffer.setFragment now (routedBuffer specBuffer now t f) f = (b, none) := by
    rw [hr]; exact ingest_duplicate b f hopen hdup
  have hp : preparedTable specBuffer now t f = t.m_incoming := by
    unfold preparedTable; rw [hb]
  have hm : (consume specBuffer now t f).m_incoming = t.m_incoming := by
    rw [consume_eq, hsf, hp]
    exact Table.assign_self _ _ _ hb
  refine ⟨hm, by rw [hm], by rw [hm]; exact hb, ?_⟩
  rw [consume_bus, hsf]; simp

theorem duplicate_idempotence_witness :
    Table.find [(hashKey 4 2, (⟨0, some 3, [(2, [7])]⟩ : ReassemblyBuffer))] (hashKey 4 2)
      = some ⟨0, some 3, [(2, [7])]⟩ ∧
    (consume specBuffer 9
      { m_incoming := [(hashKey 4 2, ⟨0, some 3, [(2, [7])]⟩)], m_args := ⟨1800⟩, bus := [],
        log := [] } ⟨4, 2, 2, 3, [7]⟩).m_incoming
      = [(hashKey 4 2, ⟨0, some 3, [(2, [7])]⟩)] :=
  ⟨by decide,
   (duplicate_idempotence
      { m_incoming := [(hashKey 4 2, ⟨0, some 3, [(2, [7])]⟩)], m_args := ⟨1800⟩, bus := [],
        log := [] } 9 ⟨4, 2, 2, 3, [7]⟩ ⟨0, some 3, [(2, [7])]⟩
      (by decide) (by decide) (by decide)).1⟩

/-! ## Order independence -/

/-- Delivery of every index of `[0, n)` once, in any order, dispatches the payloads
concatenated in index order and removes the buffer. -/
theorem consumeAll_complete (uid source n : Nat) (payload : Nat → Payload)
    (t : Task ReassemblyBuffer Payload) (evs : List (Time × Nat)) (hn : 0 < n)
    (ht : Table.find t.m_incoming (hashKey uid source) = none)
    (hperm : (evs.map Prod.snd).Perm (List.range n)) :
    (consumeAll specBuffer t (delivery uid source n payload evs)).bus
      = t.bus ++ [(List.range n).flatMap payload] ∧
    Table.find (consumeAll specBuffer t (delivery uid source n payload evs)).m_incoming
      (hashKey uid source) = none := by
  have hlen : evs.length = n := by
    have := hperm.length_eq
    simpa using this
  have hnodup : (evs.map Prod.snd).Nodup := hperm.nodup_iff.mpr (List.nodup_range n)
  have hlt : ∀ e ∈ evs, e.2 < n := by
    intro e he
    exact List.mem_range.mp (hperm.subset (List.mem_map_of_mem Prod.snd he))
  rcases List.eq_nil_or_concat evs with hnil | ⟨init, last, hconcat⟩
  · subst hnil
    simp at hlen
    omega
  · rw [List.concat_eq_append] at hconcat
    subst hconcat
    obtain ⟨now, i⟩ := last
    rw [List.map_append, List.map_cons, List.map_nil] at hnodup
    have hnd := List.nodup_append.mp hnodup
    have hinit : (init.map Prod.snd).Nodup := hnd.1
    have hnot : i ∉ init.map Prod.snd := by
      intro hmem
      exact hnd.2.2 hmem (List.mem_singleton_self i)
    have hleninit : init.length + 1 = n := by simpa using hlen
    have hcardinit : ((init.map Prod.snd).toFinset).card = init.length := by
      rw [List.toFinset_card_of_nodup hinit, List.length_map]
    have h0 : TableHolds n payload (hashKey uid source) ∅ t.m_incoming := by
      unfold TableHolds; rw [ht]
    obtain ⟨hbus, hth⟩ := consumeAll_incomplete uid source n payload init ∅ t h0
      (fun e he => hlt e (List.mem_append_left _ he))
      (by rw [Finset.empty_union, hcardinit]; omega)
    have hstep := consume_complete uid source n payload _ _ now i hth
      (hlt (now, i) (List.mem_append_right _ (List.mem_singleton_self _)))
      (by rw [Finset.empty_union]; exact fun h => hnot (List.mem_toFinset.mp h))
      (by
        intro j hj
        rw [Finset.empty_union] at hj
        obtain ⟨e, he, rfl⟩ := List.mem_map.mp (List.mem_toFinset.mp hj)
        exact hlt e (List.mem_append_left _ he))
      (by rw [Finset.empty_union, hcardinit]; exact hleninit)
    have happ : consumeAll specBuffer t (delivery uid source n payload (init ++ [(now, i)]))
        = consume specBuffer now (consumeAll specBuffer t (delivery uid source n payload init))
            (fragmentOf uid source n payload i) := by
      unfold delivery
      rw [List.map_append, consumeAll_append]
      rfl
    rw [happ]
    exact ⟨by rw [hstep.1, hbus], hstep.2⟩

/-- A sequence of fragments that is a rearrangement of a complete fragment set is the
delivery of that set in the order of its indices. -/
theorem eq_delivery_of_perm (uid source n : Nat) (payload : Nat → Payload)
    (evs : List (Time × MessagePart))
    (hperm : (evs.map Prod.snd).Perm ((List.range n).map (fragmentOf uid source n payload))) :
    evs = delivery uid source n payload (evs.map (fun e => (e.1, e.2.frag_number))) ∧
    ((evs.map (fun e => (e.1, e.2.frag_number))).map Prod.snd).Perm (List.range n) := by
  refine ⟨?_, ?_⟩
  · unfold delivery
    rw [List.map_map]
    conv_lhs => rw [← List.map_id evs]
    apply List.map_congr_left
    intro e he
    have hmem : e.2 ∈ (List.range n).map (fragmentOf uid source n payload) :=
      hperm.subset (List.mem_map_of_mem Prod.snd he)
    obtain ⟨k, _, hk⟩ := List.mem_map.mp hmem
    obtain ⟨now, f⟩ := e
    simp only at hk
    subst hk
    rfl
  · have h1 := hperm.map MessagePart.frag_number
    rw [List.map_map, List.map_map] at h1
    have h2 : (List.range n).map (MessagePart.frag_number ∘ fragmentOf uid source n payload)
        = List.range n := by
      conv_rhs => rw [← List.map_id (List.range n)]
      apply List.map_congr_left
      intro k _
      rfl
    rw [h2] at h1
    rw [List.map_map]
    exact h1

/-- C5. Order independence: for a complete fragment set of one group (indices
`0..n-1`, all declaring `n` fragments, `n` positive) and any two orders of delivery,
starting without a buffer for the group, each delivery dispatches exactly one message,
the concatenation of the payloads in index order; the two dispatched messages are
therefore identical. -/
theorem order_independence (uid source n : Nat) (payload : Nat → Payload)
    (t : Task ReassemblyBuffer Payload) (evs1 evs2 : List (Time × MessagePart)) (hn : 0 < n)
    (ht : Table.find t.m_incoming (hashKey uid source) = none)
    (h1 : (evs1.map Prod.snd).Perm ((List.range n).map (fragmentOf uid source n payload)))
    (h2 : (evs2.map Prod.snd).Perm ((List.range n).map (fragmentOf uid source n payload))) :
    (consumeAll specBuffer t evs1).bus = t.bus ++ [(List.range n).flatMap payload] ∧
    (consumeAll specBuffer t evs2).bus = t.bus ++ [(List.range n).flatMap payload] := by
  obtain ⟨e1, p1⟩ := eq_delivery_of_perm uid source n payload evs1 h1
  obtain ⟨e2, p2⟩ := eq_delivery_of_perm uid source n payload evs2 h2
  rw [e1, e2]
  exact ⟨(consumeAll_complete uid source n payload t _ hn ht p1).1,
    (consumeAll_complete uid source n payload t _ hn ht p2).1⟩

theorem order_independence_witness :
    (consumeAll specBuffer (Task.init ReassemblyBuffer Payload 1800)
        [(0, fragmentOf 4 2 3 (fun i => [i, i + 10]) 2),
         (1, fragmentOf 4 2 3 (fun i => [i, i + 10]) 0),
         (2, fragmentOf 4 2 3 (fun i => [i, i + 10]) 1)]).bus
      = [] ++ [(List.range 3).flatMap (fun i => [i, i + 10])] ∧
    (consumeAll specBuffer (Task.init ReassemblyBuffer Payload 1800)
        [(5, fragmentOf 4 2 3 (fun i => [i, i + 10]) 1),
         (6, fragmentOf 4 2 3 (fun i => [i, i + 10]) 2),
         (9, fragmentOf 4 2 3 (fun i => [i, i + 10]) 0)]).bus
      = [] ++ [(List.range 3).flatMap (fun i => [i, i + 10])] :=
  order_independence 4 2 3 (fun i => [i, i + 10]) (Task.init ReassemblyBuffer Payload 1800)
    [(0, fragmentOf 4 2 3 (fun i => [i, i + 10]) 2),
     (1, fragmentOf 4 2 3 (fun i => [i, i + 10]) 0),
     (2, fragmentOf 4 2 3 (fun i => [i, i + 10]) 1)]
    [(5, fragmentOf 4 2 3 (fun i => [i, i + 10]) 1),
     (6, fragmentOf 4 2 3 (fun i => [i, i + 10]) 2),
     (9, fragmentOf 4 2 3 (fun i => [i, i + 10]) 0)]
    (by decide) (by decide) (by decide) (by decide)

/-! ## The sweep `messageRipper` -/

/-- While no visited buffer is older than the timeout, the loop erases nothing and runs
to the end. -/
theorem ripperLoop_of_none_expired (I : IncomingMessageClass B M) (now max_age_secs : Time)
    (l : List (Nat × B)) (s : Table B × List LogEntry)
    (h : ∀ e ∈ l, ¬ I.getAge now e.2 > max_age_secs) :
    ripperLoop I now max_age_secs l s = Except.ok s := by
  induction l with
  | nil => rfl
  | cons e rest ih =>
    have he : ¬ I.getAge now e.2 > max_age_secs := h e (List.mem_cons_self _ _)
    have hb : ripperBody I now max_age_secs e s = (s, true) := by
      unfold ripperBody; simp only [he, if_false]
    simp only [ripperLoop, hb, if_true]
    exact ih (fun e1 h1 => h e1 (List.mem_cons_of_mem _ h1))

/-- As soon as a visited buffer is older than the timeout, the loop erases the node of
its iterator and then increments that iterator. -/
theorem ripperLoop_of_expired (I : IncomingMessageClass B M) (now max_age_secs : Time)
    (l : List (Nat × B)) (s : Table B × List LogEntry)
    (h : ∃ e ∈ l, I.getAge now e.2 > max_age_secs) :
    ∃ k, ripperLoop I now max_age_secs l s
      = Except.error (Undefined.incrementOfErasedIterator k) := by
  induction l with
  | nil => simp at h
  | cons e rest ih =>
    by_cases he : I.getAge now e.2 > max_age_secs
    · refine ⟨e.1, ?_⟩
      simp [ripperLoop, ripperBody, he]
    · have hb : ripperBody I now max_age_secs e s = (s, true) := by
        unfold ripperBody; simp only [he, if_false]
      simp only [ripperLoop, hb, if_true]
      apply ih
      obtain ⟨e1, h1, h2⟩ := h
      rcases List.mem_cons.mp h1 with h3 | h3
      · subst h3; exact absurd h2 he
      · exact ⟨e1, h3, h2⟩

/-- A sweep that finds no buffer older than the timeout returns with the table as it
was. -/
theorem messageRipper_of_none_expired (I : IncomingMessageClass B M) (now : Time)
    (t : Task B M) (h : ∀ e ∈ t.m_incoming, ¬ I.getAge now e.2 > t.m_args.max_age_secs) :
    messageRipper I now t = Except.ok { t with log := t.log ++ [LogEntry.debugRipping] } := by
  unfold messageRipper
  rw [ripperLoop_of_none_expired I now _ _ _ h]

/-- A sweep that finds a buffer older than the timeout reaches the increment of an
erased iterator. -/
theorem messageRipper_of_expired (I : IncomingMessageClass B M) (now : Time)
    (t : Task B M) (h : ∃ e ∈ t.m_incoming, I.getAge now e.2 > t.m_args.max_age_secs) :
    ∃ k, messageRipper I now t = Except.error (Undefined.incrementOfErasedIterator k) := by
  obtain ⟨k, hk⟩ := ripperLoop_of_expired I now t.m_args.max_age_secs t.m_incoming
    (t.m_incoming, t.log ++ [LogEntry.debugRipping]) h
  refine ⟨k, ?_⟩
  unfold messageRipper
  rw [hk]

/-- C2, at the failing input. With a timeout of 5 and one buffer created at time 100:
the sweep at time 104 returns with the buffer still in the table, but the sweep at time
106 does not return the table without it: after erasing the node it increments the
iterator that pointed at it. -/
theorem messageRipper_timeout_scenario :
    (∃ t2, messageRipper specBuffer 104
        (consume specBuffer 100 (Task.init ReassemblyBuffer Payload 5) ⟨4, 2, 0, 3, [7]⟩)
          = Except.ok t2 ∧
      t2.m_incoming
        = (consume specBuffer 100 (Task.init ReassemblyBuffer Payload 5)
            ⟨4, 2, 0, 3, [7]⟩).m_incoming ∧
      (Table.find t2.m_incoming (hashKey 4 2)).isSome = true) ∧
    messageRipper specBuffer 106
        (consume specBuffer 100 (Task.init ReassemblyBuffer Payload 5) ⟨4, 2, 0, 3, [7]⟩)
      = Except.error (Undefined.incrementOfErasedIterator (hashKey 4 2)) :=
  ⟨⟨_, rfl, rfl, rfl⟩, rfl⟩

/-- C3, at the failing input. On a table with one buffer older than the timeout,
`messageRipper` erases the node its iterator points at inside the traversal and then
increments that iterator. -/
theorem messageRipper_increments_erased_iterator :
    messageRipper specBuffer 6
        { m_incoming := [(11, ⟨0, some 3, [(2, [7])]⟩)], m_args := ⟨5⟩, bus := [], log := [] }
      = Except.error (Undefined.incrementOfErasedIterator 11) :=
  rfl

/-- C8, at the failing input. With two of three fragments received at times 0 and 1 and
a timeout of 5, the sweep at time 10 does not return a table from which the buffer has
been removed: it ends in the increment of the erased iterator. -/
theorem messageRipper_eviction_scenario :
    ∀ t2, messageRipper specBuffer 10
        (consumeAll specBuffer (Task.init ReassemblyBuffer Payload 5)
          (delivery 4 2 3 (fun i => [i]) [(0, 0), (1, 1)])) ≠ Except.ok t2 := by
  intro t2 h
  have h1 : messageRipper specBuffer 10
        (consumeAll specBuffer (Task.init ReassemblyBuffer Payload 5)
          (delivery 4 2 3 (fun i => [i]) [(0, 0), (1, 1)]))
      = Except.error (Undefined.incrementOfErasedIterator (hashKey 4 2)) := rfl
  rw [h1] at h
  exact Except.noConfusion h

/-! ## The buffers left in the table -/

namespace Table

theorem mem_of_find (m : Table B) (k : Nat) (b : B) (h : find m k = some b) : (k, b) ∈ m := by
  induction m with
  | nil => simp [find] at h
  | cons e rest ih =>
    obtain ⟨k1, b1⟩ := e
    by_cases hk : k1 = k
    · simp [find, hk] at h
      simp [hk, h]
    · simp only [find, hk, if_false] at h
      exact List.mem_cons_of_mem _ (ih h)

theorem mem_insert (m : Table B) (k : Nat) (b : B) (e : Nat × B) (h : e ∈ insert m k b) :
    e = (k, b) ∨ e ∈ m := by
  induction m with
  | nil => simpa [insert] using h
  | cons e1 rest ih =>
    obtain ⟨k1, b1⟩ := e1
    simp only [insert] at h
    split at h
    · rcases List.mem_cons.mp h with h1 | h1
      · exact Or.inl h1
      · exact Or.inr h1
    · rcases List.mem_cons.mp h with h1 | h1
      · exact Or.inr (h1 ▸ List.mem_cons_self _ _)
      · rcases ih h1 with h2 | h2
        · exact Or.inl h2
        · exact Or.inr (List.mem_cons_of_mem _ h2)

theorem mem_assign (m : Table B) (k : Nat) (b : B) (e : Nat × B) (h : e ∈ assign m k b) :
    e = (k, b) ∨ e ∈ m := by
  induction m with
  | nil => simp [assign] at h
  | cons e1 rest ih =>
    obtain ⟨k1, b1⟩ := e1
    by_cases hk : k1 = k
    · simp only [assign, hk, if_true] at h
      rcases List.mem_cons.mp h with h1 | h1
      · exact Or.inl h1
      · exact Or.inr (List.mem_cons_of_mem _ h1)
    · simp only [assign, hk, if_false] at h
      rcases List.mem_cons.mp h with h1 | h1
      · exact Or.inr (h1 ▸ List.mem_cons_self _ _)
      · rcases ih h1 with h2 | h2
        · exact Or.inl h2
        · exact Or.inr (List.mem_cons_of_mem _ h2)

theorem mem_erase (m : Table B) (k : Nat) (e : Nat × B) (h : e ∈ erase m k) :
    e.1 ≠ k ∧ e ∈ m := by
  induction m with
  | nil => simp [erase] at h
  | cons e1 rest ih =>
    obtain ⟨k1, b1⟩ := e1
    by_cases hk : k1 = k
    · simp only [erase, hk, if_true] at h
      exact ⟨(ih h).1, List.mem_cons_of_mem _ (ih h).2⟩
    · simp only [erase, hk, if_false] at h
      rcases List.mem_cons.mp h with h1 | h1
      · subst h1
        exact ⟨hk, List.mem_cons_self _ _⟩
      · exact ⟨(ih h1).1, List.mem_cons_of_mem _ (ih h1).2⟩

end Table

/-- Every entry of the table after `consume` is an entry of the table before, the
freshly constructed buffer, or the buffer left by a `setFragment` that returned no
message. -/
theorem mem_consume (I : IncomingMessageClass B M) (now : Time) (t : Task B M)
    (msg : MessagePart) (e : Nat × B) (h : e ∈ (consume I now t msg).m_incoming) :
    e ∈ t.m_incoming ∨ e.2 = I.ctor now ∨
      ((I.setFragment now (routedBuffer I now t msg) msg).2 = none ∧
        e.2 = (I.setFragment now (routedBuffer I now t msg) msg).1) := by
  have hprep : ∀ e1 ∈ preparedTable I now t msg, e1.2 = I.ctor now ∨ e1 ∈ t.m_incoming := by
    intro e1 h1
    unfold preparedTable at h1
    cases hf : Table.find t.m_incoming (hashKey msg.uid msg.source) with
    | none =>
      rw [hf] at h1
      rcases Table.mem_insert _ _ _ _ h1 with h2 | h2
      · exact Or.inl (by rw [h2])
      · exact Or.inr h2
    | some b =>
      rw [hf] at h1
      exact Or.inr h1
  rw [consume_eq] at h
  cases hsf : (I.setFragment now (routedBuffer I now t msg) msg).2 with
  | some res =>
    rw [hsf] at h
    obtain ⟨hne, h1⟩ := Table.mem_erase _ _ _ h
    rcases Table.mem_assign _ _ _ _ h1 with h2 | h2
    · exact absurd (by rw [h2]) hne
    · rcases hprep e h2 with h3 | h3
      · exact Or.inr (Or.inl h3)
      · exact Or.inl h3
  | none =>
    rw [hsf] at h
    rcases Table.mem_assign _ _ _ _ h with h2 | h2
    · exact Or.inr (Or.inr ⟨rfl, by rw [h2]⟩)
    · rcases hprep e h2 with h3 | h3
      · exact Or.inr (Or.inl h3)
      · exact Or.inl h3

theorem pending_create (now : Time) : Pending (ReassemblyBuffer.create now) :=
  Or.inl ⟨rfl, rfl⟩

/-- An ingestion that returns no message leaves the buffer pending. -/
theorem pending_ingest (b b1 : ReassemblyBuffer) (f : MessagePart) (hb : Pending b)
    (h : ReassemblyBuffer.ingest b f = (b1, none)) : Pending b1 := by
  unfold ReassemblyBuffer.ingest at h
  by_cases h1 : f.num_frags ≤ f.frag_number
  · rw [if_pos h1] at h
    cases h
    exact hb
  · rw [if_neg h1] at h
    by_cases h2 : b.expected_count.isSome ∧ b.expected_count ≠ some f.num_frags
    · rw [if_pos h2] at h
      cases h
      exact hb
    · rw [if_neg h2] at h
      have hexp : b.expected_count = none ∨ b.expected_count = some f.num_frags := by
        cases hx : b.expected_count with
        | none => exact Or.inl rfl
        | some n =>
          right
          by_contra hne
          exact h2 (by rw [hx]; exact ⟨rfl, hne⟩)
      by_cases hdup : (ReassemblyBuffer.payloadAt b.received f.frag_number).isSome = true
      · simp only [hdup, if_true] at h
        by_cases hlen : b.received.length = f.num_frags
        · rw [if_pos hlen] at h
          simp at h
        · rw [if_neg hlen] at h
          cases h
          rcases hb with ⟨_, hrec⟩ | ⟨n, hn, hpos, hlt⟩
          · simp [hrec, ReassemblyBuffer.payloadAt] at hdup
          · rcases hexp with hx | hx
            · rw [hx] at hn; cases hn
            · rw [hx] at hn
              cases hn
              exact Or.inr ⟨f.num_frags, rfl, hpos, hlt⟩
      · simp only [hdup, if_false, Bool.false_eq_true] at h
        by_cases hlen : ((f.frag_number, f.data) :: b.received).length = f.num_frags
        · rw [if_pos hlen] at h
          simp at h
        · rw [if_neg hlen] at h
          cases h
          refine Or.inr ⟨f.num_frags, rfl, by simp, ?_⟩
          simp only [List.length_cons] at hlen ⊢
          rcases hb with ⟨_, hrec⟩ | ⟨n, hn, hpos, hlt⟩
          · simp only [hrec, List.length_nil] at hlen ⊢
            omega
          · rcases hexp with hx | hx
            · rw [hx] at hn; cases hn
            · rw [hx] at hn
              cases hn
              omega

/-- A sweep that returns has removed nothing. -/
theorem ripperLoop_ok (I : IncomingMessageClass B M) (now max_age_secs : Time)
    (l : List (Nat × B)) (s s1 : Table B × List LogEntry)
    (h : ripperLoop I now max_age_secs l s = Except.ok s1) : s1 = s := by
  induction l with
  | nil =>
    simp only [ripperLoop] at h
    cases h
    rfl
  | cons e rest ih =>
    by_cases he : I.getAge now e.2 > max_age_secs
    · simp [ripperLoop, ripperBody, he] at h
    · have hb : ripperBody I now max_age_secs e s = (s, true) := by
        unfold ripperBody; simp only [he, if_false]
      simp only [ripperLoop, hb, if_true] at h
      exact ih h

theorem messageRipper_ok (I : IncomingMessageClass B M) (now : Time) (t t1 : Task B M)
    (h : messageRipper I now t = Except.ok t1) : t1.m_incoming = t.m_incoming := by
  unfold messageRipper at h
  cases hl : ripperLoop I now t.m_args.max_age_secs t.m_incoming
      (t.m_incoming, t.log ++ [LogEntry.debugRipping]) with
  | error u => rw [hl] at h; cases h
  | ok s =>
    rw [hl] at h
    have hs := ripperLoop_ok I now _ _ _ _ hl
    cases h
    rw [hs]

/-- Every buffer in a reachable table is pending. -/
theorem pending_of_reachable (max_age_secs : Time) (t : Task ReassemblyBuffer Payload)
    (h : Reachable max_age_secs t) : ∀ e ∈ t.m_incoming, Pending e.2 := by
  induction h with
  | start => intro e he; simp [Task.init] at he
  | fragment t now msg _ ih =>
    intro e he
    rcases mem_consume specBuffer now t msg e he with h1 | h1 | ⟨h1, h2⟩
    · exact ih e h1
    · rw [h1]; exact pending_create now
    · have hr : Pending (routedBuffer specBuffer now t msg) := by
        unfold routedBuffer
        cases hf : Table.find t.m_incoming (hashKey msg.uid msg.source) with
        | none => exact pending_create now
        | some b => exact ih _ (Table.mem_of_find _ _ _ hf)
      rw [h2]
      exact pending_ingest _ _ msg hr (Prod.ext rfl h1)
  | sweep t t1 now _ hok ih =>
    intro e he
    rw [messageRipper_ok specBuffer now t t1 hok] at he
    exact ih e he

/-- C11, as stated, fails. A fragment with index 5 and declared count 3, arriving at the
empty table, leaves in the reachable table a buffer that has received no fragment. -/
theorem malformed_fragment_leaves_empty_buffer :
    Reachable 1800
      (consume specBuffer 0 (Task.init ReassemblyBuffer Payload 1800) ⟨4, 2, 5, 3, [7]⟩) ∧
    (consume specBuffer 0 (Task.init ReassemblyBuffer Payload 1800)
        ⟨4, 2, 5, 3, [7]⟩).m_incoming = [(hashKey 4 2, ReassemblyBuffer.create 0)] ∧
    ¬ (1 ≤ (ReassemblyBuffer.create 0).received.length) :=
  ⟨Reachable.fragment _ 0 ⟨4, 2, 5, 3, [7]⟩ Reachable.start, by decide, by decide⟩

/-- C11, amended. In every state reached from the empty table by `consume` calls and by
sweeps that return, every stored buffer either has received nothing and has no expected
count yet, or holds at least one and fewer than `expected_count` fragments. A fragment
whose index is not below its declared count, arriving for a key with no buffer,
dispatches nothing and leaves under the key the freshly created buffer, which has
received nothing. -/
theorem table_invariant (max_age_secs : Time) (t : Task ReassemblyBuffer Payload)
    (h : Reachable max_age_secs t) :
    (∀ e ∈ t.m_incoming, Pending e.2) ∧
    (∀ (now : Time) (f : MessagePart),
      Table.find t.m_incoming (hashKey f.uid f.source) = none →
      f.num_frags ≤ f.frag_number →
      (consume specBuffer now t f).bus = t.bus ∧
      Table.find (consume specBuffer now t f).m_incoming (hashKey f.uid f.source)
        = some (ReassemblyBuffer.create now)) := by
  refine ⟨pending_of_reachable max_age_secs t h, ?_⟩
  intro now f hnone hmal
  have hr : routedBuffer specBuffer now t f = ReassemblyBuffer.create now := by
    unfold routedBuffer; rw [hnone]; rfl
  have hsf : specBuffer.setFragment now (routedBuffer specBuffer now t f) f
      = (ReassemblyBuffer.create now, none) := by
    rw [hr]
    show ReassemblyBuffer.ingest (ReassemblyBuffer.create now) f = _
    unfold ReassemblyBuffer.ingest
    rw [if_pos hmal]
  refine ⟨?_, ?_⟩
  · rw [consume_bus, hsf]; simp
  · rw [consume_find_self, hsf]

theorem table_invariant_witness :
    Reachable 1800
      (consumeAll specBuffer (Task.init ReassemblyBuffer Payload 1800)
        [(0, ⟨4, 2, 2, 3, [7]⟩), (1, ⟨9, 1, 5, 3, [8]⟩)]) ∧
    ∀ e ∈ (consumeAll specBuffer (Task.init ReassemblyBuffer Payload 1800)
        [(0, ⟨4, 2, 2, 3, [7]⟩), (1, ⟨9, 1, 5, 3, [8]⟩)]).m_incoming, Pending e.2 :=
  ⟨Reachable.fragment _ 1 ⟨9, 1, 5, 3, [8]⟩
      (Reachable.fragment _ 0 ⟨4, 2, 2, 3, [7]⟩ Reachable.start),
   (table_invariant 1800 _
      (Reachable.fragment _ 1 ⟨9, 1, 5, 3, [8]⟩
        (Reachable.fragment _ 0 ⟨4, 2, 2, 3, [7]⟩ Reachable.start))).1⟩

end Transports.Fragments

namespace Sensors.WeatherStation

/-- A handler that finds the three flags `false` leaves them `false` and writes no
warning. -/
theorem deliver_quiet {F : Type} (C : FloatNe F) (t : Task F) (m : Inbound F)
    (h1 : t.temp_conflicting = false) (h2 : t.humidity_conflicting = false)
    (h3 : t.wind_conflicting = false) :
    (deliver C t m).temp_conflicting = false ∧ (deliver C t m).humidity_conflicting = false ∧
    (deliver C t m).wind_conflicting = false ∧ (deliver C t m).log = t.log := by
  cases m with
  | temperature value =>
    simp only [deliver, consumeTemperature, h1, Bool.false_and, Bool.false_eq_true, if_false]
    split <;> simp [h1, h2, h3]
  | windSpeed speed direction =>
    simp only [deliver, consumeWindSpeed, h3, Bool.false_and, Bool.false_eq_true, if_false]
    split <;> split <;> simp [h1, h2, h3]
  | relativeHumidity value =>
    simp only [deliver, consumeRelativeHumidity, h2, Bool.false_and, Bool.false_eq_true,
      if_false]
    split <;> simp [h1, h2, h3]

theorem deliverAll_quiet {F : Type} (C : FloatNe F) (t : Task F) (msgs : List (Inbound F))
    (h1 : t.temp_conflicting = false) (h2 : t.humidity_conflicting = false)
    (h3 : t.wind_conflicting = false) :
    (deliverAll C t msgs).temp_conflicting = false ∧
    (deliverAll C t msgs).humidity_conflicting = false ∧
    (deliverAll C t msgs).wind_conflicting = false ∧ (deliverAll C t msgs).log = t.log := by
  induction msgs generalizing t with
  | nil => exact ⟨h1, h2, h3, rfl⟩
  | cons m rest ih =>
    obtain ⟨g1, g2, g3, g4⟩ := deliver_quiet C t m h1 h2 h3
    obtain ⟨k1, k2, k3, k4⟩ := ih (deliver C t m) g1 g2 g3
    exact ⟨k1, k2, k3, k4.trans g4⟩

/-- C12. In every state reached from the constructed task by any sequence of
`consume(Temperature)`, `consume(WindSpeed)` and `consume(RelativeHumidity)` calls, for
any message values and argument values, the flags `temp_conflicting`,
`humidity_conflicting` and `wind_conflicting` are all `false`, and no handler has
written its warning about conflicting messages. -/
theorem conflicting_flags_never_set {F : Type} (C : FloatNe F) (args : Arguments F)
    (temp_sim humidity_sim windspeed_sim winddirection_sim : F) (msgs : List (Inbound F)) :
    (deliverAll C (Task.initial args temp_sim humidity_sim windspeed_sim winddirection_sim)
      msgs).temp_conflicting = false ∧
    (deliverAll C (Task.initial args temp_sim humidity_sim windspeed_sim winddirection_sim)
      msgs).humidity_conflicting = false ∧
    (deliverAll C (Task.initial args temp_sim humidity_sim windspeed_sim winddirection_sim)
      msgs).wind_conflicting = false ∧
    (deliverAll C (Task.initial args temp_sim humidity_sim windspeed_sim winddirection_sim)
      msgs).log = [] :=
  deliverAll_quiet C _ msgs rfl rfl rfl

end Sensors.WeatherStation
